import Mathlib

/-
Verification of the multi-language dependency tracer
(skills/repo-dependency-analyzer/scripts/trace_dependencies.py).

The embedding models absolute filesystem paths as lists of components,
pathlib-style joining and resolution as lexical operations on those lists,
and the regex-based extractors as explicit character scanners with the
same matching semantics as the source patterns.
-/

namespace TraceDeps

/-- A filesystem path, absolute, as its list of components from the root. -/
abbrev FsPath := List String

/-- Split a list of characters at every occurrence of the separator. -/
def splitOnChar (c : Char) : List Char → List (List Char)
  | [] => [[]]
  | d :: ds =>
    let r := splitOnChar c ds
    if d = c then [] :: r
    else
      match r with
      | [] => [[d]]
      | x :: xs => (d :: x) :: xs

/-- Split a string at every occurrence of the separator character. -/
def splitParts (sep : Char) (s : String) : List String :=
  (splitOnChar sep s.toList).map List.asString

/-- str.startswith with a dot, as used by the Python/JS/Go resolvers. -/
def startsDot (s : String) : Bool :=
  match s.toList with
  | [] => false
  | c :: _ => c == ('.')

/-- Whether a textual path is absolute (starts with a slash). -/
def startsSlash (s : String) : Bool :=
  match s.toList with
  | [] => false
  | c :: _ => c == ('/')

/-- Join path components with slashes, as in a '/'-join. -/
def joinSlash : List String → String
  | [] => ""
  | [x] => x
  | x :: xs => x ++ ("/") ++ joinSlash xs

/-- pathlib-style join of an absolute base path with a textual path: the text
is split on slashes, empty and single-dot components are dropped (pathlib
normalizes those at construction), `..` components are kept, and an absolute
text replaces the base entirely. -/
def pjoin (base : FsPath) (rel : String) : FsPath :=
  let comps := (splitParts ('/') rel).filter (fun c => !(c == "" || c == "."))
  if startsSlash rel then comps else base ++ comps

/-- Lexical elimination of `..` components, modelling Path.resolve (and the
operating system's view of a path) on a symlink-free tree. -/
def normalize (p : FsPath) : FsPath :=
  p.foldl (fun acc c =>
    if c = ".." then acc.dropLast
    else if c = "." ∨ c = "" then acc
    else acc ++ [c]) []

/-- Path.parent: drop the last component (the parent of the root is the root). -/
def parentDir (p : FsPath) : FsPath := p.dropLast

/-- Path.name: the last component (empty for the root). -/
def lastName (p : FsPath) : String := p.getLastD ("")

/-- Path.is_relative_to: lexical component-prefix test. -/
def isRelativeTo (p root : FsPath) : Bool := root.isPrefixOf p

/-- Path(str(p) + ext): render the path, append the text, and reparse.  A
suffix such as ".ts" merges into the last component, "/index.ts" adds one. -/
def addSuffix (p : FsPath) (ext : String) : FsPath :=
  (splitParts ('/') (joinSlash p ++ ext)).filter (fun c => !(c == "" || c == "."))

/-- The filesystem: regular files carry `some` text when readable and `none`
when opening them fails; directories are listed separately.  All stored paths
are in normalized (resolved) form. -/
structure FileSystem where
  files : List (FsPath × Option String)
  dirs : List FsPath
deriving DecidableEq

/-- Path.is_dir, consulting the operating system (which resolves `..`). -/
def isDir (fs : FileSystem) (p : FsPath) : Bool :=
  fs.dirs.contains (normalize p)

/-- Path.exists, true for regular files and directories alike. -/
def fileExists (fs : FileSystem) (p : FsPath) : Bool :=
  (fs.files.map Prod.fst).contains (normalize p) || isDir fs p

/-- open(p).read(): fails (IsADirectoryError) on a directory, fails on a
missing path, and yields the recorded text otherwise (`none` models any
unreadable file). -/
def readFile (fs : FileSystem) (p : FsPath) : Option String :=
  if isDir fs p then none
  else (fs.files.lookup (normalize p)).join

/-- Path.suffix: the file extension of the last component, dot included. -/
def pathSuffix (p : FsPath) : String :=
  let parts := splitParts ('.') (lastName p)
  match parts with
  | [] => ""
  | [_] => ""
  | ps =>
    if ps.getLastD ("") = "" then ""
    else if ps.length = 2 ∧ ps.headD ("") = "" then ""
    else ("." : String) ++ ps.getLastD ("")

/-- Python regex \s: ASCII whitespace. -/
def isSpaceChar (c : Char) : Bool :=
  c == (' ') || c == ('\t') || c == ('\n') || c == ('\r') || c == ('\x0b') || c == ('\x0c')

/-- Python regex \w: word characters. -/
def isWordChar (c : Char) : Bool := c.isAlphanum || c == ('_')

/-- The class [a-zA-Z_] opening an identifier capture. -/
def identStartChar (c : Char) : Bool := c.isAlpha || c == ('_')

/-- The class [\w.] used inside dotted-module captures. -/
def isWordDot (c : Char) : Bool := isWordChar c || c == ('.')

/-- Consume an exact literal, returning the remainder. -/
def expectLit : List Char → List Char → Option (List Char)
  | [], cs => some cs
  | _ :: _, [] => none
  | l :: ls, c :: cs => if c = l then expectLit ls cs else none

/-- Consume \s+ (at least one whitespace character, greedily). -/
def expectWs1 : List Char → Option (List Char)
  | [] => none
  | c :: cs => if isSpaceChar c then some (cs.dropWhile isSpaceChar) else none

/-- Consume one expected character. -/
def expectChar (x : Char) : List Char → Option (List Char)
  | [] => none
  | c :: cs => if c = x then some cs else none

/-- Capture [a-zA-Z_][\w.]* with maximal munch, returning it and the rest. -/
def captureModule : List Char → Option (String × List Char)
  | [] => none
  | c :: rest =>
    if identStartChar c then
      some ((c :: rest.takeWhile isWordDot).asString, rest.dropWhile isWordDot)
    else none

/-- Capture \.+[\w.]* (equivalently \.[\w.]*) with maximal munch. -/
def captureDotModule : List Char → Option (String × List Char)
  | [] => none
  | c :: rest =>
    if c == ('.') then
      some ((c :: rest.takeWhile isWordDot).asString, rest.dropWhile isWordDot)
    else none

/-- Pattern `^\s*import\s+([a-zA-Z_][\w.]*)` applied to one line. -/
def pyImportCapture (line : List Char) : Option String := do
  let r1 ← expectLit (("import").toList) (line.dropWhile isSpaceChar)
  let r2 ← expectWs1 r1
  let (m, _) ← captureModule r2
  some m

/-- Pattern `^\s*from\s+([a-zA-Z_][\w.]*)\s+import` applied to one line. -/
def pyFromCapture (line : List Char) : Option String := do
  let r1 ← expectLit (("from").toList) (line.dropWhile isSpaceChar)
  let r2 ← expectWs1 r1
  let (m, r3) ← captureModule r2
  let r4 ← expectWs1 r3
  let _ ← expectLit (("import").toList) r4
  some m

/-- Pattern `^\s*from\s+(\.+[\w.]*)\s+import` applied to one line. -/
def pyFromDotsCapture (line : List Char) : Option String := do
  let r1 ← expectLit (("from").toList) (line.dropWhile isSpaceChar)
  let r2 ← expectWs1 r1
  let (m, r3) ← captureDotModule r2
  let r4 ← expectWs1 r3
  let _ ← expectLit (("import").toList) r4
  some m

/-- _parse_python_imports: all three line-anchored patterns over the file text. -/
def pyCaptures (content : String) : List String :=
  let lines := splitOnChar ('\n') content.toList
  lines.filterMap pyImportCapture ++ lines.filterMap pyFromCapture ++
    lines.filterMap pyFromDotsCapture

/-- A single-quote character, for the JS quote class. -/
def sq : Char := Char.ofNat 39

/-- Capture ["']([^"']+)["'] : an opening quote of either kind, a nonempty run
of non-quote characters, and a closing quote of either kind. -/
def quoteStep : List Char → Option (String × List Char)
  | [] => none
  | c :: rest =>
    if c == ('"') || c == sq then
      let cap := rest.takeWhile (fun d => !(d == ('"') || d == sq))
      let rest2 := rest.dropWhile (fun d => !(d == ('"') || d == sq))
      if cap.isEmpty then none
      else
        match rest2 with
        | [] => none
        | q :: r => if q == ('"') || q == sq then some (cap.asString, r) else none
    else none

/-- Run a match attempt at every position, left to right, resuming after each
match, as re.finditer does.  The fuel is the text length; every step either
matches (consuming at least the matched text) or advances one character. -/
def scanAux (step : List Char → Option (String × List Char)) : Nat → List Char → List String
  | 0, _ => []
  | _ + 1, [] => []
  | n + 1, c :: cs =>
    match step (c :: cs) with
    | some (cap, rest) => cap :: scanAux step n rest
    | none => scanAux step n cs

/-- finditer of a single pattern over the whole text. -/
def scanFor (step : List Char → Option (String × List Char)) (content : List Char) :
    List String :=
  scanAux step content.length content

/-- Tail `\s+from\s+["']([^"']+)["']` of the JS import-from pattern. -/
def jsFromTail (cs : List Char) : Option (String × List Char) := do
  let r1 ← expectWs1 cs
  let r2 ← expectLit (("from").toList) r1
  let r3 ← expectWs1 r2
  quoteStep r3

/-- The lazy `.*?` middle of the JS import-from pattern: try the tail at each
length, shortest first; the dot does not cross a newline. -/
def jsMiddle : Nat → List Char → Option (String × List Char)
  | fuel, cs =>
    match jsFromTail cs with
    | some r => some r
    | none =>
      match fuel, cs with
      | f + 1, c :: rest => if c == ('\n') then none else jsMiddle f rest
      | _, _ => none

/-- Pattern `import\s+.*?\s+from\s+["']([^"']+)["']`. -/
def jsImportFromStep (cs : List Char) : Option (String × List Char) := do
  let r1 ← expectLit (("import").toList) cs
  let r2 ← expectWs1 r1
  jsMiddle r2.length r2

/-- Patterns `require\s*\(["']([^"']+)["']\)` and `import\s*\(...\)`. -/
def jsCallStep (kw : List Char) (cs : List Char) : Option (String × List Char) := do
  let r1 ← expectLit kw cs
  let r2 := r1.dropWhile isSpaceChar
  let r3 ← expectChar ('(') r2
  let (cap, r4) ← quoteStep r3
  let r5 ← expectChar (')') r4
  some (cap, r5)

/-- _parse_js_imports: the three JS/TS patterns over the file text. -/
def jsCaptures (content : String) : List String :=
  scanFor jsImportFromStep content.toList ++
    scanFor (jsCallStep (("require").toList)) content.toList ++
    scanFor (jsCallStep (("import").toList)) content.toList

/-- Pattern `import\s+"([^"]+)"` (single-line Go import). -/
def goSingleStep (cs : List Char) : Option (String × List Char) := do
  let r1 ← expectLit (("import").toList) cs
  let r2 ← expectWs1 r1
  let r3 ← expectChar ('"') r2
  let cap := r3.takeWhile (fun c => !(c == ('"')))
  let rest := r3.dropWhile (fun c => !(c == ('"')))
  if cap.isEmpty then none
  else
    match rest with
    | [] => none
    | q :: r4 => if q == ('"') then some (cap.asString, r4) else none

/-- The last segment lying between two consecutive quotes that is nonempty:
what the greedy `[^)]*"([^"]+)"[^)]*` capture of the block pattern selects. -/
def lastNonempty : List (List Char) → Option (List Char)
  | [] => none
  | x :: xs =>
    match lastNonempty xs with
    | some r => some r
    | none => if x.isEmpty then none else some x

/-- Pattern `import\s+\([^)]*"([^"]+)"[^)]*\)` (Go import block): everything up
to the first closing parenthesis is the block; the greedy prefix makes the
capture the last nonempty inter-quote segment. -/
def goBlockStep (cs : List Char) : Option (String × List Char) := do
  let r1 ← expectLit (("import").toList) cs
  let r2 ← expectWs1 r1
  let r3 ← expectChar ('(') r2
  let seg := r3.takeWhile (fun c => !(c == (')')))
  let rest := r3.dropWhile (fun c => !(c == (')')))
  match rest with
  | [] => none
  | _ :: r4 =>
    let parts := splitOnChar ('"') seg
    if parts.length < 3 then none
    else
      match lastNonempty ((parts.drop 1).dropLast) with
      | some cap => some (cap.asString, r4)
      | none => none

/-- _parse_go_imports: both Go patterns over the file text. -/
def goCaptures (content : String) : List String :=
  scanFor goSingleStep content.toList ++ scanFor goBlockStep content.toList

/-- Pattern `import\s+([\w.]+);` (Java). -/
def javaImportStep (cs : List Char) : Option (String × List Char) := do
  let r1 ← expectLit (("import").toList) cs
  let r2 ← expectWs1 r1
  let cap := r2.takeWhile isWordDot
  let rest := r2.dropWhile isWordDot
  if cap.isEmpty then none
  else
    match rest with
    | [] => none
    | c :: r3 => if c == (';') then some (cap.asString, r3) else none

/-- _parse_java_imports captures. -/
def javaCaptures (content : String) : List String :=
  scanFor javaImportStep content.toList

/-- Pattern `#include\s+"([^"]+)"`. -/
def cQuoteStep (cs : List Char) : Option (String × List Char) := do
  let r1 ← expectLit (("#include").toList) cs
  let r2 ← expectWs1 r1
  let r3 ← expectChar ('"') r2
  let cap := r3.takeWhile (fun c => !(c == ('"')))
  let rest := r3.dropWhile (fun c => !(c == ('"')))
  if cap.isEmpty then none
  else
    match rest with
    | [] => none
    | _ :: r4 => some (cap.asString, r4)

/-- Pattern `#include\s+<([^>]+)>`. -/
def cAngleStep (cs : List Char) : Option (String × List Char) := do
  let r1 ← expectLit (("#include").toList) cs
  let r2 ← expectWs1 r1
  let r3 ← expectChar ('<') r2
  let cap := r3.takeWhile (fun c => !(c == ('>')))
  let rest := r3.dropWhile (fun c => !(c == ('>')))
  if cap.isEmpty then none
  else
    match rest with
    | [] => none
    | _ :: r4 => some (cap.asString, r4)

/-- _parse_c_includes captures. -/
def cCaptures (content : String) : List String :=
  scanFor cQuoteStep content.toList ++ scanFor cAngleStep content.toList

/-- str.replace('.', '/') on a module string. -/
def replaceDots (s : String) : String :=
  (s.toList.map (fun c => if c = ('.') then ('/') else c)).asString

/-- Ascend n parent directories, as the for-loop over parent.parent. -/
def ascend : Nat → FsPath → FsPath
  | 0, p => p
  | n + 1, p => ascend n (parentDir p)

/-- The absolute branch of _resolve_python_module: dots become separators and
the result is probed as a package `__init__.py` then as a module file. -/
def pyAbsolute (fs : FileSystem) (root : FsPath) (module : String) : Option FsPath :=
  let modulePath := replaceDots module
  let packageInit := pjoin (pjoin root modulePath) ("__init__.py")
  if fileExists fs packageInit then some packageInit
  else
    let moduleFile := pjoin root (modulePath ++ (".py"))
    if fileExists fs moduleFile then some moduleFile
    else none

/-- _resolve_python_module: the relative branch counts the empty fields of the
dot-split as the level, ascends level-1 parents, probes `__init__.py` then a
sibling `.py` file, and falls through to the absolute branch when both fail. -/
def resolvePythonModule (fs : FileSystem) (root : FsPath) (module : String)
    (file : FsPath) : Option FsPath :=
  let relResult :=
    if startsDot module then
      let parts := splitParts ('.') module
      let level := (parts.filter (fun s => s == "")).length
      let moduleParts := parts.filter (fun s => s != "")
      let par := ascend (level - 1) (parentDir file)
      let target := if moduleParts.isEmpty then par else pjoin par (joinSlash moduleParts)
      let initFile := pjoin target ("__init__.py")
      if fileExists fs initFile then some initFile
      else
        let pyFile := pjoin (parentDir target) (lastName target ++ (".py"))
        if fileExists fs pyFile then some pyFile
        else none
    else none
  match relResult with
  | some p => some p
  | none => pyAbsolute fs root module

/-- The ordered candidate suffixes of the JS resolver. -/
def jsExts : List String :=
  ["", ".js", ".jsx", ".ts", ".tsx", "/index.js", "/index.jsx", "/index.ts", "/index.tsx"]

/-- The probing loop of _resolve_js_import: first candidate that exists and
lies within the repository root wins. -/
def firstCandidate (fs : FileSystem) (root : FsPath) : List String → FsPath → Option FsPath
  | [], _ => none
  | e :: es, target =>
    let check := addSuffix target e
    if fileExists fs check && isRelativeTo check root then some check
    else firstCandidate fs root es target

/-- _resolve_js_import. -/
def resolveJsImport (fs : FileSystem) (root : FsPath) (importPath : String)
    (file : FsPath) : Option FsPath :=
  if startsDot importPath then
    firstCandidate fs root jsExts (normalize (pjoin (parentDir file) importPath))
  else none

/-- _resolve_go_import: a relative import resolves to the resolved target
directory when it is a directory lying within the repository root. -/
def resolveGoImport (fs : FileSystem) (root : FsPath) (importPath : String)
    (file : FsPath) : Option FsPath :=
  if startsDot importPath then
    let targetDir := normalize (pjoin (parentDir file) importPath)
    if isDir fs targetDir && isRelativeTo targetDir root then some targetDir
    else none
  else none

/-- _resolve_java_import. -/
def resolveJavaImport (fs : FileSystem) (root : FsPath) (importPath : String) :
    Option FsPath :=
  let full := pjoin root (replaceDots importPath ++ (".java"))
  if fileExists fs full then some full else none

/-- _resolve_c_include: first probe relative to the including file's directory
(with a containment check), then relative to the repository root (without one). -/
def resolveCInclude (fs : FileSystem) (root : FsPath) (includePath : String)
    (file : FsPath) : Option FsPath :=
  let relPath := normalize (pjoin (parentDir file) includePath)
  if fileExists fs relPath && isRelativeTo relPath root then some relPath
  else
    let rootPath := pjoin root includePath
    if fileExists fs rootPath then some rootPath
    else none

/-- Python reference extraction and resolution for one file. -/
def pyDeps (fs : FileSystem) (root : FsPath) (content : String) (file : FsPath) :
    List FsPath :=
  ((pyCaptures content).filterMap (fun m => resolvePythonModule fs root m file)).dedup

/-- JS/TS reference extraction and resolution for one file. -/
def jsDeps (fs : FileSystem) (root : FsPath) (content : String) (file : FsPath) :
    List FsPath :=
  ((jsCaptures content).filterMap (fun i => resolveJsImport fs root i file)).dedup

/-- Go reference extraction and resolution for one file; only dot-prefixed
paths are handed to the resolver. -/
def goDeps (fs : FileSystem) (root : FsPath) (content : String) (file : FsPath) :
    List FsPath :=
  ((goCaptures content).filterMap
    (fun i => if startsDot i then resolveGoImport fs root i file else none)).dedup

/-- Java reference extraction and resolution for one file. -/
def javaDeps (fs : FileSystem) (root : FsPath) (content : String) : List FsPath :=
  ((javaCaptures content).filterMap (fun i => resolveJavaImport fs root i)).dedup

/-- C/C++ reference extraction and resolution for one file. -/
def cDeps (fs : FileSystem) (root : FsPath) (content : String) (file : FsPath) :
    List FsPath :=
  ((cCaptures content).filterMap (fun i => resolveCInclude fs root i file)).dedup

/-- _get_direct_dependencies: a file that cannot be opened (missing, a
directory, or unreadable) contributes nothing; otherwise the extension picks
the extractor/resolver pair. -/
def getDirectDependencies (fs : FileSystem) (root : FsPath) (p : FsPath) :
    List FsPath :=
  match readFile fs p with
  | none => []
  | some content =>
    let ext := pathSuffix p
    if ext = ".py" then pyDeps fs root content p
    else if ext = ".js" ∨ ext = ".jsx" ∨ ext = ".ts" ∨ ext = ".tsx" then
      jsDeps fs root content p
    else if ext = ".go" then goDeps fs root content p
    else if ext = ".java" then javaDeps fs root content
    else if ext = ".c" ∨ ext = ".cpp" ∨ ext = ".h" ∨ ext = ".hpp" then
      cDeps fs root content p
    else []

/-- The inner for-loop of trace_dependencies: each direct dependency that is
not yet recorded and is not the focus is added to the result, and pushed onto
the frontier when not yet visited.  Note the popped node is already in
`visited` at this point. -/
def processDeps (focus : FsPath) (visited : List FsPath) :
    List FsPath → List FsPath → List FsPath → List FsPath × List FsPath
  | [], result, pushes => (result, pushes)
  | d :: ds, result, pushes =>
    if d ∉ result ∧ d ≠ focus then
      processDeps focus visited ds (d :: result)
        (if d ∉ visited then pushes ++ [d] else pushes)
    else processDeps focus visited ds result pushes

/-- The while-loop of trace_dependencies, with explicit fuel: `none` means
the fuel ran out before the frontier emptied (the loop would still be
running).  The frontier is a stack with its head as the top, matching the
list-append/list-pop discipline of the source. -/
def traceLoop (deps : FsPath → List FsPath) (focus : FsPath) :
    Nat → List FsPath → List FsPath → List FsPath → Option (List FsPath)
  | _, [], _, result => some result
  | 0, _ :: _, _, _ => none
  | fuel + 1, current :: rest, visited, result =>
    if current ∈ visited then traceLoop deps focus fuel rest visited result
    else
      let visited2 := current :: visited
      let pd := processDeps focus visited2 (deps current) result []
      traceLoop deps focus fuel (pd.2.reverse ++ rest) visited2 pd.1

/-- Fuel that is ample for every example filesystem in this development. -/
def traceFuel (fs : FileSystem) : Nat :=
  (fs.files.length + fs.dirs.length + 1) * 2 + 2

/-- trace_dependencies: raises FileNotFoundError (the error case) when the
resolved focus path does not exist, and otherwise runs the traversal from the
focus file with empty visited and result sets. -/
def traceDependencies (fs : FileSystem) (root : FsPath) (focusFile : String) :
    Except String (Option (List FsPath)) :=
  let focusPath := normalize (pjoin root focusFile)
  if fileExists fs focusPath then
    Except.ok (traceLoop (getDirectDependencies fs root) focusPath (traceFuel fs)
      [focusPath] [] [])
  else
    Except.error (("Focus file not found: ") ++ focusFile)

/-- Path ordering used by sorted(dependencies): componentwise lexicographic. -/
def pathLe : FsPath → FsPath → Bool
  | [], _ => true
  | _ :: _, [] => false
  | a :: as, b :: bs => if a = b then pathLe as bs else decide (a < b)

/-- Insertion into a sorted list of paths. -/
def insertSorted (p : FsPath) : List FsPath → List FsPath
  | [] => [p]
  | q :: qs => if pathLe p q then p :: q :: qs else q :: insertSorted p qs

/-- sorted(dependencies). -/
def sortPaths (l : List FsPath) : List FsPath := l.foldr insertSorted []

/-- The observable outcome of one process run. -/
structure MainResult where
  exitCode : Nat
  stdout : List String
  stderr : List String
deriving DecidableEq

/-- The separator rule printed by main. -/
def ruleLine : String := (List.replicate 60 ('-')).asString

/-- main: on a NotFound failure the error goes to stderr and the exit status
is 1 with nothing on stdout; on success the header, the sorted relative
paths (or a placeholder), and the total are printed.  `none` models the
process still running (the traversal loop not having finished). -/
def pymain (fs : FileSystem) (root : FsPath) (focusFile : String) :
    Option MainResult :=
  match traceDependencies fs root focusFile with
  | Except.error e => some ⟨1, [], [("Error: ") ++ e]⟩
  | Except.ok none => none
  | Except.ok (some deps) =>
    let header := [("Dependencies for ") ++ focusFile ++ (":"), ruleLine]
    let body :=
      if deps.isEmpty then [("  No dependencies found")]
      else (sortPaths deps).map (fun d => ("  ") ++ joinSlash (d.drop root.length))
    let footer := [ruleLine, ("Total: ") ++ toString deps.length ++ (" files")]
    some ⟨0, header ++ body ++ footer, []⟩

/-- Repository for the C-include escape scenario: /repo is the root,
/repo/main.c includes "../evil.h", and /evil.h exists outside the root. -/
def fsC1 : FileSystem :=
  ⟨[([("evil.h")], some ("")),
    ([("repo"), ("main.c")], some ("#include \"../evil.h\""))],
   [[], [("repo")]]⟩

/-- Repository for the bare relative import scenario: mod.py says
`from . import sibling` and sibling.py exists next to it. -/
def fsC2 : FileSystem :=
  ⟨[([("repo"), ("pkg"), ("mod.py")], some ("from . import sibling")),
    ([("repo"), ("pkg"), ("sibling.py")], some (""))],
   [[], [("repo")], [("repo"), ("pkg")]]⟩

/-- Repository where a two-dot relative import resolves to a package. -/
def fsC2w : FileSystem :=
  ⟨[([("r"), ("util"), ("__init__.py")], some ("")),
    ([("r"), ("sub"), ("mod.py")], some ("from ..util import helper"))],
   [[], [("r")], [("r"), ("sub")], [("r"), ("util")]]⟩

/-- Go repository: cmd/main.go imports the standard library and a sibling
package directory. -/
def fsC3 : FileSystem :=
  ⟨[([("r"), ("cmd"), ("main.go")], some ("import \"fmt\"\nimport \"../pkg\""))],
   [[], [("r")], [("r"), ("cmd")], [("r"), ("pkg")]]⟩

/-- The empty repository. -/
def fsEmpty : FileSystem := ⟨[], []⟩

/-- JS repository with both a file util.ts and a directory util/. -/
def fsC4 : FileSystem :=
  ⟨[([("r"), ("util.ts")], some ("")),
    ([("r"), ("util"), ("index.js")], some ("")),
    ([("r"), ("app.js")], some ("import x from \"./util\""))],
   [[], [("r")], [("r"), ("util")]]⟩

/-- JS repository with only util.ts. -/
def fsC4b : FileSystem :=
  ⟨[([("r"), ("util.ts")], some ("")),
    ([("r"), ("app.js")], some ("import x from \"./util\""))],
   [[], [("r")]]⟩

/-- JS repository with both util.js and util.ts and no util directory. -/
def fsC4c : FileSystem :=
  ⟨[([("r"), ("util.js")], some ("")),
    ([("r"), ("util.ts")], some ("")),
    ([("r"), ("app.js")], some ("import x from \"./util\""))],
   [[], [("r")]]⟩

/-- Python repository with a two-file import cycle through the focus file. -/
def fsC5 : FileSystem :=
  ⟨[([("r"), ("a.py")], some ("import b")),
    ([("r"), ("b.py")], some ("import a"))],
   [[], [("r")]]⟩

/-- Repository used for the missing-focus-file run. -/
def fsC6 : FileSystem :=
  ⟨[([("r"), ("a.py")], some (""))], [[], [("r")]]⟩

/-- Repository with an unreadable file next to a readable one. -/
def fsC7 : FileSystem :=
  ⟨[([("r"), ("a.py")], some ("import broken")),
    ([("r"), ("broken.py")], none)],
   [[], [("r")]]⟩

/-- Python repository with a two-file import cycle. -/
def fsC8 : FileSystem :=
  ⟨[([("r"), ("a.py")], some ("import b")),
    ([("r"), ("b.py")], some ("import a"))],
   [[], [("r")]]⟩

/-- Go repository where the resolved dependency is a directory whose inner
file references a further directory. -/
def fsC9 : FileSystem :=
  ⟨[([("r"), ("main.go")], some ("import \"./pkg\"")),
    ([("r"), ("pkg"), ("inner.go")], some ("import \"../other\""))],
   [[], [("r")], [("r"), ("pkg")], [("r"), ("other")]]⟩

/-- Python repository with a comma-separated import line. -/
def fsC10 : FileSystem :=
  ⟨[([("r"), ("m.py")], some ("import a, b, c")),
    ([("r"), ("a.py")], some ("")),
    ([("r"), ("b.py")], some ("")),
    ([("r"), ("c.py")], some (""))],
   [[], [("r")]]⟩

/-- C1: every reported dependency is claimed to lie within the repository
root, with the two-step C-include probe rejecting `..` escapes; in fact the
second probe (relative to the repo root) has no containment check, so
`#include "../evil.h"` from repo/main.c resolves to repo/../evil.h, an
existing file outside the repository root. -/
theorem c1_include_escape :
    resolveCInclude fsC1 [("repo")] ("../evil.h") [("repo"), ("main.c")] =
      some [("repo"), (".."), ("evil.h")] ∧
    fileExists fsC1 [("repo"), (".."), ("evil.h")] = true ∧
    isRelativeTo (normalize [("repo"), (".."), ("evil.h")]) [("repo")] = false :=
  ⟨rfl, rfl, rfl⟩

/-- C2 counterexample: with sibling.py present next to mod.py, the line
`from . import sibling` captures only `.` as the reference, which resolves to
nothing — the file contributes no dependencies, refuting the claim that the
reference resolves to the sibling file. -/
theorem c2_counterexample :
    fileExists fsC2 [("repo"), ("pkg"), ("sibling.py")] = true ∧
    pyFromDotsCapture (("from . import sibling").toList) = some (".") ∧
    resolvePythonModule fsC2 [("repo")] (".") [("repo"), ("pkg"), ("mod.py")] = none ∧
    getDirectDependencies fsC2 [("repo")] [("repo"), ("pkg"), ("mod.py")] = [] :=
  ⟨rfl, rfl, rfl, rfl⟩

/-- The JS probing loop returns the first candidate, in suffix order,
that exists and lies within the root. -/
theorem firstCandidate_eq_find (fs : FileSystem) (root : FsPath) :
    ∀ (exts : List String) (target : FsPath),
      firstCandidate fs root exts target =
        (exts.map (addSuffix target)).find?
          (fun c => fileExists fs c && isRelativeTo c root) := by
  intro exts
  induction exts with
  | nil => intro target; rfl
  | cons e es ih =>
    intro target
    simp only [firstCandidate, List.map_cons, List.find?_cons]
    cases h : fileExists fs (addSuffix target e) && isRelativeTo (addSuffix target e) root with
    | true => simp [h]
    | false => simp [h, ih]

/-- C3: both Go import forms are matched; only dot-prefixed paths resolve,
and then exactly to the resolved target directory when it is a directory
within the repository root; a module-path import such as "fmt" never
resolves. -/
theorem c3_go_imports :
    (∀ (fs : FileSystem) (root : FsPath) (i : String) (f : FsPath),
       startsDot i = false → resolveGoImport fs root i f = none) ∧
    (∀ (fs : FileSystem) (root : FsPath) (i : String) (f d : FsPath),
       startsDot i = true →
       (resolveGoImport fs root i f = some d ↔
         d = normalize (pjoin (parentDir f) i) ∧ isDir fs d = true ∧
           isRelativeTo d root = true)) ∧
    goCaptures ("import \"fmt\"\nimport \"../pkg\"") = [("fmt"), ("../pkg")] ∧
    goCaptures ("package main\nimport (\n\t\"fmt\"\n\t\"../pkg\"\n)\n") = [("../pkg")] ∧
    resolveGoImport fsC3 [("r")] ("fmt") [("r"), ("cmd"), ("main.go")] = none ∧
    getDirectDependencies fsC3 [("r")] [("r"), ("cmd"), ("main.go")] =
      [[("r"), ("pkg")]] := by
  refine ⟨?_, ?_, rfl, rfl, rfl, rfl⟩
  · intro fs root i f h
    simp [resolveGoImport, h]
  · intro fs root i f d h
    simp only [resolveGoImport, h, if_true]
    cases hc : isDir fs (normalize (pjoin (parentDir f) i)) &&
        isRelativeTo (normalize (pjoin (parentDir f) i)) root with
    | true =>
      rw [Bool.and_eq_true] at hc
      simp only [hc.1, hc.2, if_true, Bool.and_self, Option.some_inj]
      constructor
      · rintro rfl; exact ⟨rfl, hc.1, hc.2⟩
      · rintro ⟨rfl, _, _⟩; rfl
    | false =>
      simp only [hc, Bool.false_eq_true, if_false]
      constructor
      · rintro h'; exact absurd h' (by simp)
      · rintro ⟨rfl, h1, h2⟩
        rw [h1, h2] at hc
        simp at hc

/-- C3 witness: the module-path import "fmt" never resolves. -/
theorem c3_witness :
    resolveGoImport fsEmpty [] ("fmt") [] = none :=
  c3_go_imports.1 fsEmpty [] ("fmt") [] rfl

/-- C4 counterexample: with both util.ts and util/index.js present, the
reference "./util" resolves to the existing directory util via the
exact-match candidate, not to util.ts as claimed. -/
theorem c4_counterexample :
    resolveJsImport fsC4 [("r")] ("./util") [("r"), ("app.js")] =
      some [("r"), ("util")] ∧
    fileExists fsC4 [("r"), ("util.ts")] = true ∧
    ([("r"), ("util")] : FsPath) ≠ [("r"), ("util.ts")] :=
  ⟨rfl, rfl, by decide⟩

/-- C4 (amended): only dot-prefixed references resolve; the candidates are
probed in the fixed suffix order with the first one that exists (as a file or
a directory) within the root winning; a bare directory satisfies the
exact-match candidate, so "./util" picks the directory util over util.ts;
without the directory the suffix order .js before .ts applies. -/
theorem c4_js_resolution :
    (∀ (fs : FileSystem) (root : FsPath) (i : String) (f : FsPath),
       startsDot i = false → resolveJsImport fs root i f = none) ∧
    (∀ (fs : FileSystem) (root : FsPath) (i : String) (f : FsPath),
       startsDot i = true →
       resolveJsImport fs root i f =
         (jsExts.map (addSuffix (normalize (pjoin (parentDir f) i)))).find?
           (fun c => fileExists fs c && isRelativeTo c root)) ∧
    resolveJsImport fsC4 [("r")] ("./util") [("r"), ("app.js")] =
      some [("r"), ("util")] ∧
    resolveJsImport fsC4b [("r")] ("./util") [("r"), ("app.js")] =
      some [("r"), ("util.ts")] ∧
    resolveJsImport fsC4c [("r")] ("./util") [("r"), ("app.js")] =
      some [("r"), ("util.js")] := by
  refine ⟨?_, ?_, rfl, rfl, rfl⟩
  · intro fs root i f h
    simp [resolveJsImport, h]
  · intro fs root i f h
    simp [resolveJsImport, h, firstCandidate_eq_find]

/-- C4 witness: a bare package-style reference never resolves. -/
theorem c4_witness :
    resolveJsImport fsEmpty [] ("lodash") [] = none :=
  c4_js_resolution.1 fsEmpty [] ("lodash") [] rfl

/-- C6: when the resolved focus path does not exist, the run reports the
NotFound message on stderr, exits with status 1, and prints nothing at all on
stdout. -/
theorem c6_notfound (fs : FileSystem) (root : FsPath) (focusFile : String)
    (h : fileExists fs (normalize (pjoin root focusFile)) = false) :
    pymain fs root focusFile =
      some ⟨1, [], [("Error: Focus file not found: ") ++ focusFile]⟩ := by
  simp only [pymain, traceDependencies, h, Bool.false_eq_true, if_false]
  rfl

/-- C6 witness: a concrete missing focus file. -/
theorem c6_witness :
    pymain fsC6 [("r")] ("missing.py") =
      some ⟨1, [], [("Error: Focus file not found: missing.py")]⟩ :=
  c6_notfound fsC6 [("r")] ("missing.py") rfl

/-- C7: a file that cannot be opened contributes an empty direct-dependency
list, and expanding such a file in the traversal just marks it visited and
continues with the rest of the frontier — the traversal is never aborted. -/
theorem c7_unreadable :
    (∀ (fs : FileSystem) (root : FsPath) (p : FsPath),
       readFile fs p = none → getDirectDependencies fs root p = []) ∧
    (∀ (deps : FsPath → List FsPath) (focus : FsPath) (fuel : Nat) (p : FsPath)
       (rest visited result : List FsPath),
       p ∉ visited → deps p = [] →
       traceLoop deps focus (fuel + 1) (p :: rest) visited result =
         traceLoop deps focus fuel rest (p :: visited) result) := by
  constructor
  · intro fs root p h
    unfold getDirectDependencies
    rw [h]
  · intro deps focus fuel p rest visited result hv hd
    simp [traceLoop, hv, hd, processDeps]

/-- C7 witness: the unreadable file broken.py contributes nothing, and the
traversal over fsC7 completes with broken.py in the result as a leaf. -/
theorem c7_witness :
    getDirectDependencies fsC7 [("r")] [("r"), ("broken.py")] = [] ∧
    traceDependencies fsC7 [("r")] ("a.py") =
      Except.ok (some [[("r"), ("broken.py")]]) :=
  ⟨c7_unreadable.1 fsC7 [("r")] [("r"), ("broken.py")] rfl, rfl⟩

/-- C9: a dependency that is a directory is a leaf — opening it fails, so it
contributes no references; it appears in the result set while the files
inside it are never traversed (inner.go exists but neither it nor the
directory `other` that it references shows up). -/
theorem c9_directory_leaf :
    (∀ (fs : FileSystem) (root : FsPath) (d : FsPath),
       isDir fs d = true → getDirectDependencies fs root d = []) ∧
    traceDependencies fsC9 [("r")] ("main.go") =
      Except.ok (some [[("r"), ("pkg")]]) ∧
    getDirectDependencies fsC9 [("r")] [("r"), ("pkg")] = [] ∧
    fileExists fsC9 [("r"), ("pkg"), ("inner.go")] = true ∧
    isDir fsC9 [("r"), ("other")] = true := by
  refine ⟨?_, rfl, rfl, rfl, rfl⟩
  intro fs root d h
  unfold getDirectDependencies
  simp [readFile, h]

/-- C9 witness: the directory r/pkg of fsC9 is a leaf. -/
theorem c9_witness :
    getDirectDependencies fsC9 [("r")] [("r"), ("other")] = [] :=
  c9_directory_leaf.1 fsC9 [("r")] [("r"), ("other")] rfl

/-- The inner dependency loop never records the focus file. -/
theorem processDeps_keeps_focus (focus : FsPath) (visited : List FsPath) :
    ∀ (ds result pushes : List FsPath), focus ∉ result →
      focus ∉ (processDeps focus visited ds result pushes).1 := by
  intro ds
  induction ds with
  | nil => intro result pushes h; exact h
  | cons d ds ih =>
    intro result pushes h
    simp only [processDeps]
    split
    · next hcond =>
      refine ih _ _ ?_
      intro hmem
      rcases List.mem_cons.mp hmem with heq | hmem2
      · exact hcond.2 heq.symm
      · exact h hmem2
    · exact ih _ _ h

/-- The traversal loop never records the focus file. -/
theorem traceLoop_keeps_focus (deps : FsPath → List FsPath) (focus : FsPath) :
    ∀ (fuel : Nat) (frontier visited result r : List FsPath), focus ∉ result →
      traceLoop deps focus fuel frontier visited result = some r → focus ∉ r := by
  intro fuel
  induction fuel with
  | zero =>
    intro frontier visited result r h heq
    cases frontier with
    | nil =>
      simp only [traceLoop, Option.some_inj] at heq
      exact heq ▸ h
    | cons c cs => simp [traceLoop] at heq
  | succ n ih =>
    intro frontier visited result r h heq
    cases frontier with
    | nil =>
      simp only [traceLoop, Option.some_inj] at heq
      exact heq ▸ h
    | cons c cs =>
      simp only [traceLoop] at heq
      split at heq
      · exact ih _ _ _ _ h heq
      · exact ih _ _ _ _ (processDeps_keeps_focus focus _ _ _ _ h) heq

/-- C5: the result of a successful trace never contains the focus file
itself, whatever the repository and however other files refer back to it. -/
theorem c5_focus_excluded (fs : FileSystem) (root : FsPath) (focusFile : String)
    (r : List FsPath)
    (h : traceDependencies fs root focusFile = Except.ok (some r)) :
    normalize (pjoin root focusFile) ∉ r := by
  cases hex : fileExists fs (normalize (pjoin root focusFile)) with
  | false => simp [traceDependencies, hex] at h
  | true =>
    simp only [traceDependencies, hex, if_true, Except.ok.injEq] at h
    exact traceLoop_keeps_focus (getDirectDependencies fs root)
      (normalize (pjoin root focusFile)) (traceFuel fs) _ _ _ r
      (List.not_mem_nil _) h

/-- C5 witness: in the cyclic repository fsC5, tracing a.py (which b.py
imports back) yields exactly b.py — the focus file is excluded. -/
theorem c5_witness :
    normalize (pjoin [("r")] ("a.py")) ∉ [[("r"), ("b.py")]] :=
  c5_focus_excluded fsC5 [("r")] ("a.py") [[("r"), ("b.py")]] rfl

/-- One step of the dependency loop cannot grow the combined measure of
pending pushes plus still-unrecorded universe elements. -/
theorem processDeps_measure (U : Finset FsPath) (focus : FsPath)
    (visited : List FsPath) :
    ∀ (ds result pushes : List FsPath), (∀ d ∈ ds, d ∈ U) →
      (processDeps focus visited ds result pushes).2.length +
          (U.filter (fun u => u ∉ (processDeps focus visited ds result pushes).1)).card ≤
        pushes.length + (U.filter (fun u => u ∉ result)).card := by
  intro ds
  induction ds with
  | nil => intro result pushes h; simp [processDeps]
  | cons d ds ih =>
    intro result pushes h
    have hdU : d ∈ U := h d (List.mem_cons_self d ds)
    have htail : ∀ x ∈ ds, x ∈ U := fun x hx => h x (List.mem_cons_of_mem d hx)
    simp only [processDeps]
    split
    · next hcond =>
      have hmem : d ∈ U.filter (fun u => u ∉ result) :=
        Finset.mem_filter.mpr ⟨hdU, hcond.1⟩
      have hpos : 1 ≤ (U.filter (fun u => u ∉ result)).card :=
        Finset.card_pos.mpr ⟨d, hmem⟩
      have hcard : (U.filter (fun u => u ∉ d :: result)).card + 1 =
          (U.filter (fun u => u ∉ result)).card := by
        have hset : U.filter (fun u => u ∉ d :: result) =
            (U.filter (fun u => u ∉ result)).erase d := by
          ext x
          simp only [Finset.mem_filter, Finset.mem_erase, List.mem_cons]
          tauto
        rw [hset, Finset.card_erase_of_mem hmem]
        omega
      have hstep := ih (d :: result)
        (if d ∉ visited then pushes ++ [d] else pushes) htail
      have hlen : (if d ∉ visited then pushes ++ [d] else pushes).length ≤
          pushes.length + 1 := by
        split <;> simp
      omega
    · next =>
      exact ih result pushes htail

/-- With deps drawn from a finite universe U, fuel of the frontier length
plus the number of universe elements not yet recorded always finishes the
traversal loop. -/
theorem traceLoop_total (deps : FsPath → List FsPath) (U : Finset FsPath)
    (focus : FsPath) (hdeps : ∀ x, ∀ d ∈ deps x, d ∈ U) :
    ∀ (fuel : Nat) (frontier visited result : List FsPath),
      frontier.length + (U.filter (fun u => u ∉ result)).card ≤ fuel →
      (traceLoop deps focus fuel frontier visited result).isSome = true := by
  intro fuel
  induction fuel with
  | zero =>
    intro frontier visited result h
    cases frontier with
    | nil => simp [traceLoop]
    | cons c cs => simp at h
  | succ n ih =>
    intro frontier visited result h
    cases frontier with
    | nil => simp [traceLoop]
    | cons c cs =>
      simp only [traceLoop]
      split
      · refine ih cs visited result ?_
        simp only [List.length_cons] at h
        omega
      · have hm := processDeps_measure U focus (c :: visited) (deps c) result []
          (hdeps c)
        refine ih _ _ _ ?_
        simp only [List.length_append, List.length_reverse, List.length_nil] at hm ⊢
        simp only [List.length_cons] at h
        omega

/-- The inner dependency loop preserves distinctness of the result. -/
theorem processDeps_nodup (focus : FsPath) (visited : List FsPath) :
    ∀ (ds result pushes : List FsPath), result.Nodup →
      (processDeps focus visited ds result pushes).1.Nodup := by
  intro ds
  induction ds with
  | nil => intro result pushes h; exact h
  | cons d ds ih =>
    intro result pushes h
    simp only [processDeps]
    split
    · next hcond => exact ih _ _ (List.nodup_cons.mpr ⟨hcond.1, h⟩)
    · exact ih _ _ h

/-- The traversal loop preserves distinctness of the result. -/
theorem traceLoop_nodup (deps : FsPath → List FsPath) (focus : FsPath) :
    ∀ (fuel : Nat) (frontier visited result r : List FsPath), result.Nodup →
      traceLoop deps focus fuel frontier visited result = some r → r.Nodup := by
  intro fuel
  induction fuel with
  | zero =>
    intro frontier visited result r h heq
    cases frontier with
    | nil =>
      simp only [traceLoop, Option.some_inj] at heq
      exact heq ▸ h
    | cons c cs => simp [traceLoop] at heq
  | succ n ih =>
    intro frontier visited result r h heq
    cases frontier with
    | nil =>
      simp only [traceLoop, Option.some_inj] at heq
      exact heq ▸ h
    | cons c cs =>
      simp only [traceLoop] at heq
      split at heq
      · exact ih _ _ _ _ h heq
      · exact ih _ _ _ _ (processDeps_nodup focus _ _ _ _ h) heq

/-- C8: with the universe of files finite, the traversal always terminates
(sufficient fuel makes the loop finish); an already-visited node popped from
the frontier is skipped rather than expanded again; the result never acquires
duplicate entries; and the cyclic repository fsC8 (a.py and b.py importing
each other) yields exactly b.py when tracing a.py. -/
theorem c8_termination :
    (∀ (deps : FsPath → List FsPath) (U : Finset FsPath) (focus : FsPath)
       (fuel : Nat) (frontier visited result : List FsPath),
       (∀ x, ∀ d ∈ deps x, d ∈ U) →
       frontier.length + (U.filter (fun u => u ∉ result)).card ≤ fuel →
       (traceLoop deps focus fuel frontier visited result).isSome = true) ∧
    (∀ (deps : FsPath → List FsPath) (focus : FsPath) (fuel : Nat)
       (current : FsPath) (rest visited result : List FsPath),
       current ∈ visited →
       traceLoop deps focus (fuel + 1) (current :: rest) visited result =
         traceLoop deps focus fuel rest visited result) ∧
    (∀ (deps : FsPath → List FsPath) (focus : FsPath) (fuel : Nat)
       (frontier visited result r : List FsPath), result.Nodup →
       traceLoop deps focus fuel frontier visited result = some r → r.Nodup) ∧
    traceDependencies fsC8 [("r")] ("a.py") =
      Except.ok (some [[("r"), ("b.py")]]) := by
  refine ⟨fun deps U focus fuel frontier visited result h1 h2 =>
      traceLoop_total deps U focus h1 fuel frontier visited result h2,
    ?_,
    fun deps focus fuel frontier visited result r h1 h2 =>
      traceLoop_nodup deps focus fuel frontier visited result r h1 h2,
    rfl⟩
  intro deps focus fuel current rest visited result h
  simp [traceLoop, h]

/-- C8 witness: a concrete finite universe and fuel bound finishing. -/
theorem c8_witness :
    (traceLoop (fun _ => []) [] 2 [[("x")]] [] []).isSome = true :=
  c8_termination.1 (fun _ => []) ∅ [] 2 [[("x")]] [] []
    (by intro x d hd; simp at hd) (by simp)

/-- An identifier-opening character is not whitespace. -/
theorem identStart_not_space (c : Char) (h : identStartChar c = true) :
    isSpaceChar c = false := by
  cases hs : isSpaceChar c with
  | false => rfl
  | true =>
    exfalso
    have hc := hs
    simp only [isSpaceChar, Bool.or_eq_true, beq_iff_eq] at hc
    rcases hc with ((((hc | hc) | hc) | hc) | hc) | hc <;> subst hc <;>
      exact absurd h (by decide)

/-- Consuming a literal from itself-plus-remainder yields the remainder. -/
theorem expectLit_append : ∀ (l r : List Char), expectLit l (l ++ r) = some r := by
  intro l
  induction l with
  | nil => intro r; rfl
  | cons c cs ih => intro r; simp [expectLit, ih]

/-- takeWhile runs through a block on which the predicate holds. -/
theorem takeWhile_append_all {p : Char → Bool} :
    ∀ (xs ys : List Char), (∀ c ∈ xs, p c = true) →
      (xs ++ ys).takeWhile p = xs ++ ys.takeWhile p := by
  intro xs
  induction xs with
  | nil => intro ys _; rfl
  | cons x xs ih =>
    intro ys h
    have hx : p x = true := h x (List.mem_cons_self x xs)
    simp [List.takeWhile_cons, hx,
      ih ys (fun c hc => h c (List.mem_cons_of_mem x hc))]

/-- dropWhile runs through a block on which the predicate holds. -/
theorem dropWhile_append_all {p : Char → Bool} :
    ∀ (xs ys : List Char), (∀ c ∈ xs, p c = true) →
      (xs ++ ys).dropWhile p = ys.dropWhile p := by
  intro xs
  induction xs with
  | nil => intro ys _; rfl
  | cons x xs ih =>
    intro ys h
    have hx : p x = true := h x (List.mem_cons_self x xs)
    simp [List.dropWhile_cons, hx,
      ih ys (fun c hc => h c (List.mem_cons_of_mem x hc))]

/-- C10: on a comma-separated import line only the text up to the first comma
is captured — `import a, b, c` yields exactly the module `a`, and the later
modules contribute no dependency even though their files exist. -/
theorem c10_first_module_only :
    (∀ (a rest : List Char), a ≠ [] →
       identStartChar (a.headD (' ')) = true → (∀ c ∈ a, isWordDot c = true) →
       pyImportCapture ((("import ").toList) ++ a ++ ((',') :: rest)) =
         some a.asString) ∧
    pyImportCapture (("import a, b, c").toList) = some ("a") ∧
    getDirectDependencies fsC10 [("r")] [("r"), ("m.py")] = [[("r"), ("a.py")]] ∧
    fileExists fsC10 [("r"), ("b.py")] = true ∧
    fileExists fsC10 [("r"), ("c.py")] = true := by
  refine ⟨?_, rfl, rfl, rfl, rfl⟩
  intro a rest ha hhead hall
  obtain ⟨c0, a', rfl⟩ : ∃ c0 a', a = c0 :: a' := by
    cases a with
    | nil => exact absurd rfl ha
    | cons x xs => exact ⟨x, xs, rfl⟩
  have hc0 : identStartChar c0 = true := by simpa using hhead
  have hc0s : isSpaceChar c0 = false := identStart_not_space c0 hc0
  have hall' : ∀ c ∈ a', isWordDot c = true :=
    fun c hc => hall c (List.mem_cons_of_mem c0 hc)
  have hshape : (("import ").toList) ++ (c0 :: a') ++ ((',') :: rest) =
      (("import").toList) ++ ((' ') :: (c0 :: (a' ++ (',') :: rest))) := by
    simp
  rw [hshape]
  have e1 : List.dropWhile isSpaceChar
      ((("import").toList) ++ ((' ') :: (c0 :: (a' ++ (',') :: rest)))) =
      (("import").toList) ++ ((' ') :: (c0 :: (a' ++ (',') :: rest))) := rfl
  have e2 : expectLit (("import").toList)
      ((("import").toList) ++ ((' ') :: (c0 :: (a' ++ (',') :: rest)))) =
      some ((' ') :: (c0 :: (a' ++ (',') :: rest))) :=
    expectLit_append _ _
  have e3 : expectWs1 ((' ') :: (c0 :: (a' ++ (',') :: rest))) =
      some (c0 :: (a' ++ (',') :: rest)) := by
    show some (List.dropWhile isSpaceChar (c0 :: (a' ++ (',') :: rest))) = _
    rw [List.dropWhile_cons, hc0s]
    simp
  have e4 : captureModule (c0 :: (a' ++ (',') :: rest)) =
      some ((c0 :: a').asString, (',') :: rest) := by
    have ht : (a' ++ (',') :: rest).takeWhile isWordDot = a' := by
      rw [takeWhile_append_all a' _ hall',
        show List.takeWhile isWordDot ((',') :: rest) = [] from rfl]
      simp
    have hd : (a' ++ (',') :: rest).dropWhile isWordDot = (',') :: rest := by
      rw [dropWhile_append_all a' _ hall']
      rfl
    simp [captureModule, hc0, ht, hd]
  unfold pyImportCapture
  rw [e1, e2]
  show Option.bind (expectWs1 ((' ') :: (c0 :: (a' ++ (',') :: rest))))
      (fun r2 => Option.bind (captureModule r2) (fun d => some d.1)) =
    some ((c0 :: a').asString)
  rw [e3]
  show Option.bind (captureModule (c0 :: (a' ++ (',') :: rest)))
      (fun d => some d.1) = some ((c0 :: a').asString)
  rw [e4]
  rfl

/-- C10 witness: the general first-capture law at the line `import a,b`. -/
theorem c10_witness :
    pyImportCapture ((("import ").toList) ++ [('a')] ++ ((',') :: (('b') :: []))) =
      some ([('a')]).asString :=
  c10_first_module_only.1 [('a')] (('b') :: []) (by simp) (by decide) (by decide)

/-- A filter keeps a replicated block whose element satisfies it. -/
theorem filter_replicate_pos {p : String → Bool} {a : String} (h : p a = true) :
    ∀ n, (List.replicate n a).filter p = List.replicate n a := by
  intro n
  induction n with
  | zero => rfl
  | succ k ih => simp [List.replicate_succ, List.filter_cons, h, ih]

/-- A filter drops a replicated block whose element falsifies it. -/
theorem filter_replicate_neg {p : String → Bool} {a : String} (h : p a = false) :
    ∀ n, (List.replicate n a).filter p = [] := by
  intro n
  induction n with
  | zero => rfl
  | succ k ih => simp [List.replicate_succ, List.filter_cons, h, ih]

/-- C2 (amended): for a leading-dot reference whose dot-split has the shape
`dots` empty fields followed by nonempty segments, resolution ascends
(dots - 1) parent directories, joins the segments, and probes
`<path>/__init__.py` then `<path>.py` in that order, falling through to the
absolute branch when both fail.  A bare `.` splits into two empty fields, so
`from . import sibling` captures `.` alone, ascends one parent, and never
resolves to the sibling: the reference is dropped without error. -/
theorem c2_relative_resolution :
    (∀ (fs : FileSystem) (root : FsPath) (module : String) (file : FsPath)
       (dots : Nat) (segs : List String) (target initFile pyFile : FsPath),
       startsDot module = true →
       splitParts ('.') module = List.replicate dots ("") ++ segs →
       segs ≠ [] → (∀ s ∈ segs, s ≠ ("")) →
       target = pjoin (ascend (dots - 1) (parentDir file)) (joinSlash segs) →
       initFile = pjoin target ("__init__.py") →
       pyFile = pjoin (parentDir target) (lastName target ++ (".py")) →
       ((fileExists fs initFile = true →
           resolvePythonModule fs root module file = some initFile) ∧
        (fileExists fs initFile = false → fileExists fs pyFile = true →
           resolvePythonModule fs root module file = some pyFile) ∧
        (fileExists fs initFile = false → fileExists fs pyFile = false →
           resolvePythonModule fs root module file = pyAbsolute fs root module))) ∧
    splitParts ('.') (".") = [(""), ("")] ∧
    ascend 1 (parentDir [("repo"), ("pkg"), ("mod.py")]) = [("repo")] ∧
    resolvePythonModule fsC2 [("repo")] (".") [("repo"), ("pkg"), ("mod.py")] = none ∧
    fileExists fsC2 [("repo"), ("pkg"), ("sibling.py")] = true := by
  refine ⟨?_, rfl, rfl, rfl, rfl⟩
  intro fs root module file dots segs target initFile pyFile hdot hsplit hne hnem
    ht hi hp
  subst ht hi hp
  have hlevel : ((List.replicate dots ("") ++ segs).filter
      (fun s => s == "")).length = dots := by
    rw [List.filter_append, filter_replicate_pos rfl dots,
      List.filter_eq_nil_iff.mpr (fun s hs => by simpa using hnem s hs)]
    simp
  have hparts : (List.replicate dots ("") ++ segs).filter (fun s => s != "") =
      segs := by
    rw [List.filter_append, filter_replicate_neg rfl dots,
      List.filter_eq_self.mpr (fun s hs => by simpa using hnem s hs)]
    simp
  have hempty : segs.isEmpty = false := by
    cases segs with
    | nil => exact absurd rfl hne
    | cons x xs => rfl
  refine ⟨?_, ?_, ?_⟩
  · intro h1
    simp only [resolvePythonModule, hdot, if_true, hsplit, hlevel, hparts, hempty,
      Bool.false_eq_true, if_false, h1]
  · intro h1 h2
    simp only [resolvePythonModule, hdot, if_true, hsplit, hlevel, hparts, hempty,
      Bool.false_eq_true, if_false, h1, h2]
  · intro h1 h2
    simp only [resolvePythonModule, hdot, if_true, hsplit, hlevel, hparts, hempty,
      Bool.false_eq_true, if_false, h1, h2]

/-- C2 witness: `from ..util import helper` in r/sub/mod.py ascends one
parent and resolves to r/util/__init__.py. -/
theorem c2_witness :
    resolvePythonModule fsC2w [("r")] ("..util") [("r"), ("sub"), ("mod.py")] =
      some [("r"), ("util"), ("__init__.py")] := by
  have h := (c2_relative_resolution.1 fsC2w [("r")] ("..util")
    [("r"), ("sub"), ("mod.py")] 2 [("util")]
    [("r"), ("util")] [("r"), ("util"), ("__init__.py")] [("r"), ("util.py")]
    rfl rfl (by simp) (by decide) rfl rfl rfl).1 rfl
  exact h

end TraceDeps
